import Mathlib

/-!
# Verification of the YouTube Russian-language filter core

A shallow embedding of the extension's classification-and-decision pipeline:

* `src/lib/storage.js`  — detection cache (`getCachedDetection`, `cacheDetection`,
  `cleanExpiredCache`, `hashText`) and channel lists (`addToWhitelist`, `addToBlocklist`);
* the detector (`charHeuristic`, `chromeDetect`, `detectText`, `shouldFilter`);
* the content-script orchestrator (`isSearchQueryRussian`, `processVideos`);
* `src/content/video-extractor.js` (`extractMetadata`, `findUnprocessedVideos`);
* `src/background/service-worker.js` (alarm cache cleanup, context-menu list update);
* `src/popup/popup.js` (`addChannel`).

JavaScript strings are Lean `String`s, JS numbers are `Nat` with explicit `% 2 ^ 32`
where 32-bit overflow matters, the detection cache (a JS object) is an association
list in insertion order, `chrome.storage` state is passed explicitly, and the
asynchronous `chrome.i18n.detectLanguage` oracle is an injected function returning
either an error outcome (runtime `lastError` or a thrown exception) or a result.
-/

namespace RuFilter

/-! ## Character classes

The regexes of `storage.js`:
`RUSSIAN_ONLY = /[ёЁыЫэЭъЪ]/`, `UKRAINIAN_ONLY = /[іІїЇєЄґҐ]/`,
`CYRILLIC = /[Ѐ-ӿ]/`.  The Unicode letter class `\p{L}` used by the
predominantly-Cyrillic ratio is kept as an injected predicate `letterMatcher`
(its full Unicode table is not part of this repository); concrete evaluations
instantiate it with `asciiOrCyrillicLetter`, which agrees with `\p{L}` on the
ASCII-plus-Cyrillic strings used there. -/

def isUkrainianOnlyChar (c : Char) : Bool :=
  decide (c = 'і' ∨ c = 'І' ∨ c = 'ї' ∨ c = 'Ї' ∨ c = 'є' ∨ c = 'Є' ∨ c = 'ґ' ∨ c = 'Ґ')

def isRussianOnlyChar (c : Char) : Bool :=
  decide (c = 'ё' ∨ c = 'Ё' ∨ c = 'ы' ∨ c = 'Ы' ∨ c = 'э' ∨ c = 'Э' ∨ c = 'ъ' ∨ c = 'Ъ')

def isCyrillicChar (c : Char) : Bool :=
  decide (0x400 ≤ c.toNat ∧ c.toNat ≤ 0x4FF)

/-- A concrete fragment of the `\p{L}` Unicode letter class: ASCII letters and the
Cyrillic block.  It coincides with `\p{L}` on every string appearing in the
concrete evaluations below. -/
def asciiOrCyrillicLetter (c : Char) : Bool :=
  decide ((0x41 ≤ c.toNat ∧ c.toNat ≤ 0x5A) ∨ (0x61 ≤ c.toNat ∧ c.toNat ≤ 0x7A)) ||
    isCyrillicChar c

def hasUkrainianOnly (s : String) : Bool := s.data.any isUkrainianOnlyChar

def hasRussianOnly (s : String) : Bool := s.data.any isRussianOnlyChar

def hasCyrillic (s : String) : Bool := s.data.any isCyrillicChar

/-! ## `String.prototype.trim`

JS `trim` strips the ECMAScript WhiteSpace and LineTerminator code points from
both ends.  Modelled directly on the character list so that membership facts
are easy to establish. -/

def isJsWhitespace (c : Char) : Bool :=
  decide (c.toNat = 0x9 ∨ c.toNat = 0xA ∨ c.toNat = 0xB ∨ c.toNat = 0xC ∨
    c.toNat = 0xD ∨ c.toNat = 0x20 ∨ c.toNat = 0xA0 ∨ c.toNat = 0x1680 ∨
    (0x2000 ≤ c.toNat ∧ c.toNat ≤ 0x200A) ∨ c.toNat = 0x2028 ∨ c.toNat = 0x2029 ∨
    c.toNat = 0x202F ∨ c.toNat = 0x205F ∨ c.toNat = 0x3000 ∨ c.toNat = 0xFEFF)

def jsTrim (s : String) : String :=
  ⟨((s.data.dropWhile isJsWhitespace).reverse.dropWhile isJsWhitespace).reverse⟩

/-! ## Cache keying: `hashText`

`storage.js`: 32-bit FNV-1a over the UTF-16 code units of the text
(`charCodeAt` iterates code units), with `Math.imul` as 32-bit multiplication,
and the unsigned result rendered in base 36. -/

def utf16Units (s : String) : List Nat :=
  s.data.flatMap fun c =>
    if c.toNat < 0x10000 then [c.toNat]
    else [0xD800 + (c.toNat - 0x10000) / 0x400, 0xDC00 + (c.toNat - 0x10000) % 0x400]

def fnvStep (h unit : Nat) : Nat := ((h ^^^ unit) * 0x01000193) % 2 ^ 32

def hashText (s : String) : Nat := (utf16Units s).foldl fnvStep 0x811c9dc5

def base36Digit (n : Nat) : Char :=
  if n < 10 then Char.ofNat (0x30 + n) else Char.ofNat (0x57 + n)

/-- Digit-extraction loop, structurally recursive on a fuel argument so that
it reduces inside the kernel; `fuel = n` always suffices since `n / 36 < n`
for positive `n`. -/
def base36Aux : Nat → Nat → List Char → List Char
  | 0, _, acc => acc
  | _, 0, acc => acc
  | fuel + 1, n + 1, acc =>
    base36Aux fuel ((n + 1) / 36) (base36Digit ((n + 1) % 36) :: acc)

/-- JS `Number.prototype.toString(36)` for a nonnegative integer. -/
def toBase36 (n : Nat) : String :=
  if n = 0 then "0" else ⟨base36Aux n n []⟩

/-- The cache key of a text: `(hash >>> 0).toString(36)`. -/
def hashKey (s : String) : String := toBase36 (hashText s)

/-! ## Detection cache

`chrome.storage.local`'s `detectionCache` object, modelled as an association
list in insertion order (JS objects enumerate string keys in insertion order;
assigning an existing key keeps its position, `delete` removes it). -/

structure CacheEntry where
  result : String
  timestamp : Nat
deriving DecidableEq

abbrev Cache := List (String × CacheEntry)

def lookupEntry (k : String) : Cache → Option CacheEntry
  | [] => none
  | (k', v) :: rest => if k' = k then some v else lookupEntry k rest

def insertEntry (k : String) (v : CacheEntry) : Cache → Cache
  | [] => [(k, v)]
  | (k', v') :: rest => if k' = k then (k, v) :: rest else (k', v') :: insertEntry k v rest

def eraseEntry (k : String) : Cache → Cache
  | [] => []
  | (k', v') :: rest => if k' = k then rest else (k', v') :: eraseEntry k rest

/-- Thirty days in milliseconds: the cache TTL used by `getCachedDetection`,
`cleanExpiredCache` and the service-worker alarm handler. -/
def ttlMs : Nat := 30 * 24 * 60 * 60 * 1000

/-- Model of `storage.js` `getCachedDetection`: look up the text's key; a missing entry
yields `null`; an entry older than 30 days is deleted (the mutated cache is
written back) and reported as `null`.  `Date.now()` is the explicit `now`.
JS computes `now - timestamp` on numbers, where a future timestamp gives a
negative difference, never `> ttlMs`; `Nat` truncated subtraction gives `0`
there, with the same outcome. -/
def getCachedDetection (now : Nat) (text : String) (c : Cache) :
    Option String × Cache :=
  let key := hashKey text
  match lookupEntry key c with
  | none => (none, c)
  | some entry =>
    if now - entry.timestamp > ttlMs then (none, eraseEntry key c)
    else (some entry.result, c)

/-- Model of `storage.js` `cacheDetection`: store `{ result, timestamp: Date.now() }`
under the text's key. -/
def cacheDetection (now : Nat) (text result : String) (c : Cache) : Cache :=
  insertEntry (hashKey text) ⟨result, now⟩ c

/-- Model of `storage.js` `cleanExpiredCache`: delete every entry with
`timestamp < Date.now() - ttlMs` (the write-back is skipped when nothing
changed, which leaves the same cache value either way). -/
def cleanExpiredCache (now : Nat) (c : Cache) : Cache :=
  c.filter fun kv => !decide (kv.2.timestamp < now - ttlMs)

/-- Model of the `service-worker.js` `chrome.alarms.onAlarm` listener: ignore alarms other
than `rufilter-cache-cleanup`; otherwise purge entries exactly as
`cleanExpiredCache` does. -/
def alarmCacheCleanup (alarmName : String) (now : Nat) (c : Cache) : Cache :=
  if alarmName ≠ "rufilter-cache-cleanup" then c
  else c.filter fun kv => !decide (kv.2.timestamp < now - ttlMs)

/-! ## The classification oracle

`chrome.i18n.detectLanguage` as an injected function.  `err` covers both a
`chrome.runtime.lastError` outcome and a thrown exception; a `null` result or
`null`/empty `languages` array is the `ok` outcome with an empty candidate
list (all three take the same code path). -/

structure LangCandidate where
  language : String
  percentage : Nat
deriving DecidableEq

structure DetectResult where
  isReliable : Bool
  languages : List LangCandidate
deriving DecidableEq

inductive OracleOutcome where
  | err
  | ok (result : DetectResult)
deriving DecidableEq

abbrev Oracle := String → OracleOutcome

/-! ## The 3-tier detector (`storage.js`, detector half) -/

/-- Tier 1 character heuristic.  Ukrainian-unique characters first, then
Russian-unique, then the predominantly-Cyrillic ratio: if the text has at
least one Cyrillic character and more than half of its `letterMatcher`
(`\p{L}`) characters are Cyrillic, classify `RUSSIAN`.  The JS float
comparison `cyr / letters > 0.5` is exact for list-length operands, hence
`2 * cyr > letters`.  `none` models the JS `null` (inconclusive). -/
def charHeuristic (letterMatcher : Char → Bool) (text : String) : Option String :=
  if hasUkrainianOnly text then some "UKRAINIAN"
  else if hasRussianOnly text then some "RUSSIAN"
  else
    let cyrillicMatches := text.data.filter isCyrillicChar
    if cyrillicMatches ≠ [] then
      let letterMatches := text.data.filter letterMatcher
      if letterMatches ≠ [] ∧ 2 * cyrillicMatches.length > letterMatches.length then
        some "RUSSIAN"
      else none
    else none

/-- Tier 2: `chromeDetect`.  Texts with no Cyrillic resolve to `ALLOW` without
calling the oracle; an oracle error or empty candidate list resolves `ALLOW`;
a top candidate tagged `uk` resolves `UKRAINIAN`; a reliable top candidate
tagged `ru` with percentage at least 70 resolves `RUSSIAN`; anything else
resolves `ALLOW`. -/
def chromeDetect (oracle : Oracle) (text : String) : String :=
  if !hasCyrillic text then "ALLOW"
  else
    match oracle text with
    | .err => "ALLOW"
    | .ok result =>
      match result.languages with
      | [] => "ALLOW"
      | top :: _ =>
        if top.language = "uk" then "UKRAINIAN"
        else if result.isReliable ∧ top.language = "ru" ∧ top.percentage ≥ 70 then
          "RUSSIAN"
        else "ALLOW"

/-- The cache-miss tail of `detectText`: tier 1, the no-Cyrillic early
`ALLOW`, then tier 2; the computed result is cached before being returned. -/
def detectTextUncached (letterMatcher : Char → Bool) (oracle : Oracle) (now : Nat)
    (t : String) (c : Cache) : String × Cache :=
  match charHeuristic letterMatcher t with
  | some tier1 => (tier1, cacheDetection now t tier1 c)
  | none =>
    if !hasCyrillic t then ("ALLOW", cacheDetection now t "ALLOW" c)
    else
      let tier2 := chromeDetect oracle t
      (tier2, cacheDetection now t tier2 c)

/-- Model of `detectText`: empty or whitespace-only text is `ALLOW` without touching
the cache; otherwise the trimmed text is looked up (JS `if (cached) return
cached` — a falsy, i.e. empty-string, cached value falls through to
recomputation) and on a miss classified and cached. -/
def detectText (letterMatcher : Char → Bool) (oracle : Oracle) (now : Nat)
    (text : String) (c : Cache) : String × Cache :=
  if jsTrim text = "" then ("ALLOW", c)
  else
    let t := jsTrim text
    let lookup := getCachedDetection now t c
    match lookup.1 with
    | some cached =>
      if cached = "" then detectTextUncached letterMatcher oracle now t lookup.2
      else (cached, lookup.2)
    | none => detectTextUncached letterMatcher oracle now t lookup.2

/-- Model of `shouldFilter`: whitelist, then blocklist (both only for a non-empty,
i.e. truthy, channel name), then language detection of title and channel.
The source awaits both detections via `Promise.all` on the single-threaded
event loop over shared storage; this is modelled as the title detection
followed by the channel detection on the updated cache. -/
def shouldFilter (letterMatcher : Char → Bool) (oracle : Oracle) (now : Nat)
    (title channelName : String) (whitelist blocklist : String → Bool)
    (c : Cache) : String × Cache :=
  if channelName ≠ "" ∧ whitelist channelName then ("ALLOW", c)
  else if channelName ≠ "" ∧ blocklist channelName then ("BLOCK", c)
  else
    let titleDet := detectText letterMatcher oracle now title c
    let channelDet := detectText letterMatcher oracle now channelName titleDet.2
    if titleDet.1 = "UKRAINIAN" ∨ channelDet.1 = "UKRAINIAN" then ("ALLOW", channelDet.2)
    else if titleDet.1 = "RUSSIAN" then ("BLOCK", channelDet.2)
    else ("ALLOW", channelDet.2)

/-! ## Query-bypass classifier (content orchestrator)

`isSearchQueryRussian` reads `location.pathname` and the `search_query` URL
parameter; both are passed in explicitly (`rawQuery` is
`params.get('search_query') || ''`). -/

def isSearchQueryRussian (oracle : Oracle) (pathname rawQuery : String) : Bool :=
  if pathname ≠ "/results" then false
  else
    let query := jsTrim rawQuery
    if query = "" then false
    else if hasUkrainianOnly query then false
    else if hasRussianOnly query then true
    else if !hasCyrillic query then false
    else
      -- Ambiguous Cyrillic: the oracle is consulted; `lastError`, a thrown
      -- exception, or a missing/empty candidate list all resolve `false`.
      match oracle query with
      | .err => false
      | .ok result =>
        match result.languages with
        | [] => false
        | top :: _ => top.language = "ru" && decide (top.percentage ≥ 60)

/-! ## Channel lists

`whitelist` / `blocklist` are JS objects mapping channel names to `true`;
modelled as membership predicates `String → Bool`.  `name[k] = true` and
`delete name[k]` are pointwise updates of a single key. -/

def listInsert (name : String) (l : String → Bool) : String → Bool :=
  fun n => if n = name then true else l n

def listDelete (name : String) (l : String → Bool) : String → Bool :=
  fun n => if n = name then false else l n

/-- Model of `storage.js` `addToWhitelist`: no-op on a falsy (empty) name; otherwise
set the name in the whitelist and, if present, delete it from the blocklist.
Returns the `(whitelist, blocklist)` pair after both writes. -/
def addToWhitelist (channelName : String) (whitelist blocklist : String → Bool) :
    (String → Bool) × (String → Bool) :=
  if channelName = "" then (whitelist, blocklist)
  else
    let whitelist' := listInsert channelName whitelist
    let blocklist' :=
      if blocklist channelName then listDelete channelName blocklist else blocklist
    (whitelist', blocklist')

/-- Model of `storage.js` `addToBlocklist`, symmetric to `addToWhitelist`. -/
def addToBlocklist (channelName : String) (whitelist blocklist : String → Bool) :
    (String → Bool) × (String → Bool) :=
  if channelName = "" then (whitelist, blocklist)
  else
    let blocklist' := listInsert channelName blocklist
    let whitelist' :=
      if whitelist channelName then listDelete channelName whitelist else whitelist
    (whitelist', blocklist')

inductive ListType where
  | whitelistSide
  | blocklistSide
deriving DecidableEq

/-- Model of `popup.js` `addChannel`: trim the input; no-op when empty; otherwise add
the name to the chosen list and delete it from the opposite list
unconditionally, writing both back in one `chrome.storage.sync.set`. -/
def addChannel (listType : ListType) (rawName : String)
    (whitelist blocklist : String → Bool) : (String → Bool) × (String → Bool) :=
  let name := jsTrim rawName
  if name = "" then (whitelist, blocklist)
  else
    match listType with
    | .whitelistSide => (listInsert name whitelist, listDelete name blocklist)
    | .blocklistSide => (listDelete name whitelist, listInsert name blocklist)

/-- Model of the `service-worker.js` `chrome.contextMenus.onClicked` listener, from the
point where the channel name has been fetched from the content script:
unknown menu ids and an empty channel name are no-ops; otherwise insert into
the clicked list and delete from the other, writing both in one set. -/
def contextMenuUpdateLists (menuItemId channelName : String)
    (whitelist blocklist : String → Bool) : (String → Bool) × (String → Bool) :=
  if menuItemId ≠ "rufilter-whitelist" ∧ menuItemId ≠ "rufilter-blocklist" then
    (whitelist, blocklist)
  else if channelName = "" then (whitelist, blocklist)
  else if menuItemId = "rufilter-whitelist" then
    (listInsert channelName whitelist, listDelete channelName blocklist)
  else
    (listDelete channelName whitelist, listInsert channelName blocklist)

/-! ## Feed items and the batch scheduler

A DOM video container is identified by `id` (object identity, the key of the
`processedElements` WeakSet).  `title` and `channelName` are what
`extractTitle` / `extractChannelName` return for it (`""` when nothing is
found); `checkedAttr` is the `data-ru-filter-checked` attribute and `hidden`
the `data-ru-filter-hidden` attribute.  The page is the list of containers in
document order. -/

structure Container where
  id : Nat
  title : String
  channelName : String
  checkedAttr : Bool
  hidden : Bool
deriving DecidableEq

def lookupContainer (i : Nat) : List Container → Option Container
  | [] => none
  | cont :: rest => if cont.id = i then some cont else lookupContainer i rest

/-- Model of `video-extractor.js` `findUnprocessedVideos`: the containers without the
processed attribute, as identities in document order. -/
def findUnprocessedVideos (page : List Container) : List Nat :=
  (page.filter fun cont => !cont.checkedAttr).map Container.id

/-- Model of `video-extractor.js` `extractMetadata`: with no title the container is
left untouched and `null` is returned; otherwise the processed attribute is
set and `{ element, title, channelName }` returned. -/
def extractMetadata (cont : Container) : Option (String × String) × Container :=
  if cont.title = "" then (none, cont)
  else (some (cont.title, cont.channelName), { cont with checkedAttr := true })

/-- Write back a mutated container (DOM mutation through the element
reference). -/
def updateContainer (cont' : Container) (page : List Container) : List Container :=
  page.map fun cont => if cont.id = cont'.id then cont' else cont

/-- Model of `dom-actions.js` `hideVideo` on the element with identity `i`. -/
def hideVideo (i : Nat) (page : List Container) : List Container :=
  page.map fun cont => if cont.id = i then { cont with hidden := true } else cont

/-- The mutable state the `processVideos` loop threads: the page, the
`processedElements` WeakSet (as identities) and the local `filteredCount`. -/
structure LoopState where
  page : List Container
  processed : List Nat
  filteredCount : Nat
deriving DecidableEq

/-- The `for (const container of unprocessed)` loop body of `processVideos`
(orchestrator with query bypass, `src/unnamed/part_001`).  `decide` stands
for the awaited `RuFilterDetector.shouldFilter` call and may throw (its
rejection propagates to the surrounding try/catch, aborting the loop with the
partial state).  `skip` is `skipLanguageFilter`; in that mode only the
blocklist is enforced.  Containers whose identity cannot be resolved on the
page are skipped defensively (unreachable from `findUnprocessedVideos`). -/
def loopItems {ε : Type} (onDecide : String → String → Except ε String)
    (skip : Bool) (blocklist : String → Bool) :
    List Nat → LoopState → LoopState × Option ε
  | [], st => (st, none)
  | i :: rest, st =>
    match lookupContainer i st.page with
    | none => loopItems onDecide skip blocklist rest st
    | some cont =>
      if st.processed.contains i then loopItems onDecide skip blocklist rest st
      else
        match extractMetadata cont with
        | (none, _) => loopItems onDecide skip blocklist rest st
        | (some (title, channelName), cont') =>
          let st1 : LoopState :=
            { st with page := updateContainer cont' st.page, processed := i :: st.processed }
          if skip then
            if channelName ≠ "" ∧ blocklist channelName then
              loopItems onDecide skip blocklist rest
                { st1 with page := hideVideo i st1.page,
                           filteredCount := st1.filteredCount + 1 }
            else loopItems onDecide skip blocklist rest st1
          else
            match onDecide title channelName with
            | .error e => (st1, some e)
            | .ok verdict =>
              if verdict = "BLOCK" then
                loopItems onDecide skip blocklist rest
                  { st1 with page := hideVideo i st1.page,
                             filteredCount := st1.filteredCount + 1 }
              else loopItems onDecide skip blocklist rest st1

/-- The content-script state touched by one `processVideos` run.
`followUpScheduled` records whether the `finally` block armed the 200 ms
follow-up timer. -/
structure ContentState where
  isProcessing : Bool
  page : List Container
  processed : List Nat
  totalFiltered : Nat
  followUpScheduled : Bool
deriving DecidableEq

/-- The enumerate-then-loop body of the `try` block: if no unprocessed item
is found, return at once (through `finally`); otherwise run the per-item
loop. -/
def processVideosRun {ε : Type} (onDecide : String → String → Except ε String)
    (skip : Bool) (blocklist : String → Bool) (page : List Container)
    (processed : List Nat) : LoopState × Option ε :=
  let unprocessed := findUnprocessedVideos page
  if unprocessed.isEmpty then ((⟨page, processed, 0⟩ : LoopState), none)
  else loopItems onDecide skip blocklist unprocessed ⟨page, processed, 0⟩

/-- Model of `processVideos` (`src/unnamed/part_001`): re-entrancy guard on
`isProcessing` (and on `settings.enabled`), the once-per-batch query-bypass
computation, the try block (enumerate, loop, batched `incrementFiltered`),
the catch block (log only), and the `finally` block that clears
`isProcessing` and schedules a follow-up scan when unprocessed items remain.
A loop error skips the stats increment (the exception jumps to the catch
before `incrementFiltered` runs). -/
def processVideos {ε : Type} (onDecide : String → String → Except ε String)
    (oracle : Oracle) (enabled : Bool) (pathname rawQuery : String)
    (blocklist : String → Bool) (st : ContentState) : ContentState :=
  if !enabled || st.isProcessing then st
  else
    let onSearchPage : Bool := pathname = "/results"
    let russianQuery : Bool :=
      if onSearchPage then isSearchQueryRussian oracle pathname rawQuery else false
    let skip : Bool := onSearchPage && russianQuery
    let run := processVideosRun onDecide skip blocklist st.page st.processed
    let totalFiltered' :=
      if (run.2).isNone ∧ 0 < (run.1).filteredCount then
        st.totalFiltered + (run.1).filteredCount
      else st.totalFiltered
    { isProcessing := false
      page := (run.1).page
      processed := (run.1).processed
      totalFiltered := totalFiltered'
      followUpScheduled := enabled && !(findUnprocessedVideos (run.1).page).isEmpty }

/-! ## Association-list lemmas for the detection cache -/

theorem mem_of_lookupEntry {k : String} {e : CacheEntry} :
    ∀ {c : Cache}, lookupEntry k c = some e → (k, e) ∈ c
  | [], h => by simp [lookupEntry] at h
  | (k', v) :: rest, h => by
    by_cases hk : k' = k
    · simp [lookupEntry, hk] at h
      simp [hk, h]
    · simp only [lookupEntry, if_neg hk] at h
      exact List.mem_cons_of_mem _ (mem_of_lookupEntry h)

theorem lookupEntry_eq_none_of_not_mem {k : String} :
    ∀ {c : Cache}, k ∉ c.map Prod.fst → lookupEntry k c = none
  | [], _ => rfl
  | (k', v) :: rest, h => by
    simp only [List.map_cons, List.mem_cons] at h
    push_neg at h
    have hne : k' ≠ k := fun hh => h.1 hh.symm
    simp only [lookupEntry, if_neg hne, lookupEntry_eq_none_of_not_mem h.2]

theorem lookupEntry_insertEntry_self (k : String) (v : CacheEntry) :
    ∀ c : Cache, lookupEntry k (insertEntry k v c) = some v
  | [] => by simp [insertEntry, lookupEntry]
  | (k', v') :: rest => by
    by_cases hk : k' = k
    · simp [insertEntry, hk, lookupEntry]
    · simp [insertEntry, hk, lookupEntry, lookupEntry_insertEntry_self k v rest]

theorem mem_insertEntry {kv : String × CacheEntry} {k : String} {v : CacheEntry} :
    ∀ {c : Cache}, kv ∈ insertEntry k v c → kv = (k, v) ∨ kv ∈ c
  | [], h => by simpa [insertEntry] using h
  | (k', v') :: rest, h => by
    by_cases hk : k' = k
    · simp only [insertEntry, if_pos hk, List.mem_cons] at h
      rcases h with h | h
      · exact Or.inl h
      · exact Or.inr (List.mem_cons_of_mem _ h)
    · simp only [insertEntry, if_neg hk, List.mem_cons] at h
      rcases h with h | h
      · exact Or.inr (by simp [h])
      · rcases mem_insertEntry h with h' | h'
        · exact Or.inl h'
        · exact Or.inr (List.mem_cons_of_mem _ h')

theorem mem_eraseEntry {kv : String × CacheEntry} {k : String} :
    ∀ {c : Cache}, kv ∈ eraseEntry k c → kv ∈ c
  | [], h => by simpa [eraseEntry] using h
  | (k', v') :: rest, h => by
    by_cases hk : k' = k
    · simp only [eraseEntry, if_pos hk] at h
      exact List.mem_cons_of_mem _ h
    · simp only [eraseEntry, if_neg hk, List.mem_cons] at h
      rcases h with h | h
      · simp [h]
      · exact List.mem_cons_of_mem _ (mem_eraseEntry h)

theorem lookupEntry_eraseEntry_self {k : String} :
    ∀ {c : Cache}, (c.map Prod.fst).Nodup → lookupEntry k (eraseEntry k c) = none
  | [], _ => rfl
  | (k', v') :: rest, h => by
    simp only [List.map_cons, List.nodup_cons] at h
    by_cases hk : k' = k
    · subst hk
      simp only [eraseEntry, if_pos rfl]
      exact lookupEntry_eq_none_of_not_mem h.1
    · simp only [eraseEntry, if_neg hk, lookupEntry, if_neg hk]
      exact lookupEntry_eraseEntry_self h.2

theorem lookupEntry_filter (p : String × CacheEntry → Bool) {k : String} :
    ∀ {c : Cache}, (c.map Prod.fst).Nodup →
      lookupEntry k (c.filter p) =
        match lookupEntry k c with
        | some e => if p (k, e) then some e else none
        | none => none
  | [], _ => rfl
  | (k', v') :: rest, h => by
    simp only [List.map_cons, List.nodup_cons] at h
    by_cases hk : k' = k
    · subst hk
      have hrest : lookupEntry k' (rest.filter p) = none :=
        lookupEntry_eq_none_of_not_mem fun hmem => by
          rcases List.mem_map.mp hmem with ⟨kv, hkv, hfst⟩
          exact h.1 (List.mem_map.mpr ⟨kv, List.mem_of_mem_filter hkv, hfst⟩)
      by_cases hp : p (k', v')
      · simp [List.filter_cons, hp, lookupEntry]
      · simp [List.filter_cons, hp, lookupEntry, hrest]
    · simp only [List.filter_cons]
      by_cases hp : p (k', v')
      · simp only [hp, if_pos, lookupEntry, if_neg hk]
        exact lookupEntry_filter p h.2
      · simp only [hp, Bool.false_eq_true, if_neg, lookupEntry, if_neg hk]
        exact lookupEntry_filter p h.2

/-! ## Trim lemmas -/

theorem mem_dropWhile_of_pred_false {p : Char → Bool} {c : Char} :
    ∀ {l : List Char}, c ∈ l → p c = false → c ∈ l.dropWhile p
  | [], h, _ => by simp at h
  | a :: rest, h, hpc => by
    by_cases hpa : p a
    · rw [List.dropWhile_cons_of_pos hpa]
      rcases List.mem_cons.mp h with rfl | h'
      · rw [hpa] at hpc; cases hpc
      · exact mem_dropWhile_of_pred_false h' hpc
    · rw [List.dropWhile_cons_of_neg hpa]
      exact h

theorem mem_jsTrim {c : Char} {s : String} (h : c ∈ s.data)
    (hws : isJsWhitespace c = false) : c ∈ (jsTrim s).data :=
  List.mem_reverse.mpr <| mem_dropWhile_of_pred_false
    (List.mem_reverse.mpr (mem_dropWhile_of_pred_false h hws)) hws

theorem isJsWhitespace_eq_false_of_ukrainian {c : Char}
    (h : isUkrainianOnlyChar c = true) : isJsWhitespace c = false := by
  rcases of_decide_eq_true h with rfl | rfl | rfl | rfl | rfl | rfl | rfl | rfl <;> rfl

theorem hasUkrainianOnly_jsTrim {s : String} (h : hasUkrainianOnly s = true) :
    hasUkrainianOnly (jsTrim s) = true := by
  rcases List.any_eq_true.mp h with ⟨c, hc, hukr⟩
  exact List.any_eq_true.mpr
    ⟨c, mem_jsTrim hc (isJsWhitespace_eq_false_of_ukrainian hukr), hukr⟩

theorem jsTrim_ne_empty_of_hasUkrainianOnly {s : String}
    (h : hasUkrainianOnly s = true) : jsTrim s ≠ "" := by
  intro hempty
  have : hasUkrainianOnly (jsTrim s) = true := hasUkrainianOnly_jsTrim h
  rw [hempty] at this
  cases this

/-! ## Detector case lemmas -/

theorem charHeuristic_cases (letterMatcher : Char → Bool) (t : String) :
    charHeuristic letterMatcher t = none ∨
    charHeuristic letterMatcher t = some "RUSSIAN" ∨
    charHeuristic letterMatcher t = some "UKRAINIAN" := by
  by_cases h1 : hasUkrainianOnly t
  · simp [charHeuristic, h1]
  · by_cases h2 : hasRussianOnly t
    · simp [charHeuristic, h1, h2]
    · by_cases h3 : t.data.filter isCyrillicChar = []
      · simp [charHeuristic, h1, h2, h3]
      · by_cases h4 : t.data.filter letterMatcher ≠ [] ∧
          2 * (t.data.filter isCyrillicChar).length > (t.data.filter letterMatcher).length
        · refine Or.inr (Or.inl ?_)
          unfold charHeuristic
          rw [if_neg (by simpa using h1), if_neg (by simpa using h2)]
          dsimp only
          rw [if_pos h3, if_pos h4]
        · refine Or.inl ?_
          unfold charHeuristic
          rw [if_neg (by simpa using h1), if_neg (by simpa using h2)]
          dsimp only
          rw [if_pos h3, if_neg h4]

theorem chromeDetect_cases (oracle : Oracle) (t : String) :
    chromeDetect oracle t = "RUSSIAN" ∨ chromeDetect oracle t = "UKRAINIAN" ∨
    chromeDetect oracle t = "ALLOW" := by
  unfold chromeDetect
  split
  · exact Or.inr (Or.inr rfl)
  · split
    · exact Or.inr (Or.inr rfl)
    · split
      · exact Or.inr (Or.inr rfl)
      · split
        · exact Or.inr (Or.inl rfl)
        · split
          · exact Or.inl rfl
          · exact Or.inr (Or.inr rfl)

theorem detectTextUncached_eq (letterMatcher : Char → Bool) (oracle : Oracle)
    (now : Nat) (t : String) (c : Cache) :
    ∃ r, detectTextUncached letterMatcher oracle now t c =
        (r, insertEntry (hashKey t) ⟨r, now⟩ c) ∧
      (r = "RUSSIAN" ∨ r = "UKRAINIAN" ∨ r = "ALLOW") := by
  unfold detectTextUncached
  rcases charHeuristic_cases letterMatcher t with h | h | h <;> rw [h]
  · by_cases hcyr : hasCyrillic t
    · exact ⟨chromeDetect oracle t, by simp [hcyr, cacheDetection],
        chromeDetect_cases oracle t⟩
    · exact ⟨"ALLOW", by simp [hcyr, cacheDetection], Or.inr (Or.inr rfl)⟩
  · exact ⟨"RUSSIAN", by simp [cacheDetection], Or.inl rfl⟩
  · exact ⟨"UKRAINIAN", by simp [cacheDetection], Or.inr (Or.inl rfl)⟩

/-! # Claims -/

/-- Claim C3. For every text reaching tier 2 (i.e. containing a Cyrillic
codepoint), `chromeDetect` returns `ALLOW` when the oracle call fails, throws
or returns no candidate; returns `UKRAINIAN` when the top candidate's
language is `uk`; returns `RUSSIAN` exactly when the result is reliable, the
top candidate's language is `ru` and its percentage is at least 70; and
returns `ALLOW` otherwise. -/
theorem chromeDetect_tier2_spec (oracle : Oracle) (text : String)
    (hcyr : hasCyrillic text = true) :
    (oracle text = .err → chromeDetect oracle text = "ALLOW") ∧
    (∀ result, oracle text = .ok result → result.languages = [] →
      chromeDetect oracle text = "ALLOW") ∧
    (∀ result top rest, oracle text = .ok result → result.languages = top :: rest →
      top.language = "uk" → chromeDetect oracle text = "UKRAINIAN") ∧
    (chromeDetect oracle text = "RUSSIAN" ↔
      ∃ result top rest, oracle text = .ok result ∧ result.languages = top :: rest ∧
        result.isReliable = true ∧ top.language = "ru" ∧ 70 ≤ top.percentage) ∧
    (∀ result top rest, oracle text = .ok result → result.languages = top :: rest →
      top.language ≠ "uk" →
      ¬(result.isReliable = true ∧ top.language = "ru" ∧ 70 ≤ top.percentage) →
      chromeDetect oracle text = "ALLOW") := by
  have hc : (!hasCyrillic text) = false := by simp [hcyr]
  refine ⟨?_, ?_, ?_, ?_, ?_⟩
  · intro h
    simp [chromeDetect, hc, h]
  · intro result h hlang
    simp [chromeDetect, hc, h, hlang]
  · intro result top rest h hlang huk
    simp [chromeDetect, hc, h, hlang, huk]
  · constructor
    · intro h
      cases ho : oracle text with
      | err => simp [chromeDetect, hc, ho] at h
      | ok result =>
        cases hl : result.languages with
        | nil => simp [chromeDetect, hc, ho, hl] at h
        | cons top rest =>
          by_cases huk : top.language = "uk"
          · simp [chromeDetect, hc, ho, hl, huk] at h
          · by_cases hcond : result.isReliable = true ∧ top.language = "ru" ∧
                70 ≤ top.percentage
            · exact ⟨result, top, rest, rfl, hl, hcond.1, hcond.2.1, hcond.2.2⟩
            · simp [chromeDetect, hc, ho, hl, huk, hcond] at h
    · rintro ⟨result, top, rest, ho, hl, hrel, hru, hpct⟩
      have huk : ¬ top.language = "uk" := by rw [hru]; decide
      simp [chromeDetect, hc, ho, hl, huk, hrel, hru, hpct]
  · intro result top rest ho hl huk hncond
    simp [chromeDetect, hc, ho, hl, huk, hncond]

/-- Witness for claim C3: a reliable 90 % `ru` top candidate on Cyrillic text is
classified `RUSSIAN`. -/
theorem chromeDetect_tier2_spec_witness :
    hasCyrillic "привет" = true ∧
    chromeDetect (fun _ => OracleOutcome.ok ⟨true, [⟨"ru", 90⟩]⟩) "привет" =
      "RUSSIAN" :=
  ⟨by decide,
    (chromeDetect_tier2_spec (fun _ => OracleOutcome.ok ⟨true, [⟨"ru", 90⟩]⟩)
        "привет" (by decide)).2.2.2.1.mpr
      ⟨⟨true, [⟨"ru", 90⟩]⟩, ⟨"ru", 90⟩, [], rfl, rfl, rfl, rfl, by decide⟩⟩

/-- Claim C5. For every ambiguous script-family query on the search results
page (non-empty after trimming, containing Cyrillic, no Ukrainian-only and no
Russian-only codepoints), `isSearchQueryRussian` returns `true` exactly when
the oracle yields a top candidate with language `ru` and percentage at least
60 — with no reliability requirement — and any oracle failure, exception or
empty candidate list yields `false`. -/
theorem isSearchQueryRussian_ambiguous_spec (oracle : Oracle)
    (pathname rawQuery : String) (hpath : pathname = "/results")
    (hne : jsTrim rawQuery ≠ "")
    (hcyr : hasCyrillic (jsTrim rawQuery) = true)
    (hukr : hasUkrainianOnly (jsTrim rawQuery) = false)
    (hrus : hasRussianOnly (jsTrim rawQuery) = false) :
    isSearchQueryRussian oracle pathname rawQuery = true ↔
      ∃ result top rest, oracle (jsTrim rawQuery) = .ok result ∧
        result.languages = top :: rest ∧ top.language = "ru" ∧
        60 ≤ top.percentage := by
  subst hpath
  constructor
  · intro h
    cases ho : oracle (jsTrim rawQuery) with
    | err => simp [isSearchQueryRussian, hne, hcyr, hukr, hrus, ho] at h
    | ok result =>
      cases hl : result.languages with
      | nil => simp [isSearchQueryRussian, hne, hcyr, hukr, hrus, ho, hl] at h
      | cons top rest =>
        simp only [isSearchQueryRussian, if_neg (by trivial), if_neg hne, hukr,
          Bool.false_eq_true, if_neg, hrus, hcyr, Bool.not_true, ho, hl] at h
        rcases Bool.and_eq_true .. |>.mp h with ⟨hru, hpct⟩
        exact ⟨result, top, rest, rfl, hl, by simpa using hru, of_decide_eq_true hpct⟩
  · rintro ⟨result, top, rest, ho, hl, hru, hpct⟩
    simp [isSearchQueryRussian, hne, hcyr, hukr, hrus, ho, hl, hru, hpct]

/-- Witness for claim C5: the ambiguous Cyrillic query `привет` with an
unreliable 60 % `ru` top candidate is treated as a suppressed query. -/
theorem isSearchQueryRussian_ambiguous_spec_witness :
    isSearchQueryRussian (fun _ => OracleOutcome.ok ⟨false, [⟨"ru", 60⟩]⟩)
      "/results" "привет" = true :=
  (isSearchQueryRussian_ambiguous_spec (fun _ => OracleOutcome.ok ⟨false, [⟨"ru", 60⟩]⟩)
      "/results" "привет" rfl (by decide) (by decide) (by decide) (by decide)).mpr
    ⟨⟨false, [⟨"ru", 60⟩]⟩, ⟨"ru", 60⟩, [], by decide, rfl, rfl, by decide⟩

/-- No channel name is a member of both lists. -/
def disjointLists (whitelist blocklist : String → Bool) : Prop :=
  ∀ n, ¬(whitelist n = true ∧ blocklist n = true)

/-- Claim C9. All four list-insertion operations — the storage helpers
`addToWhitelist` / `addToBlocklist`, the popup's `addChannel`, and the
context-menu handler — preserve mutual exclusivity of the whitelist and the
blocklist, and inserting a (non-empty) name into one list removes it from the
other. -/
theorem lists_mutually_exclusive (whitelist blocklist : String → Bool)
    (h : disjointLists whitelist blocklist) :
    (∀ name, disjointLists (addToWhitelist name whitelist blocklist).1
      (addToWhitelist name whitelist blocklist).2) ∧
    (∀ name, disjointLists (addToBlocklist name whitelist blocklist).1
      (addToBlocklist name whitelist blocklist).2) ∧
    (∀ listType rawName, disjointLists (addChannel listType rawName whitelist blocklist).1
      (addChannel listType rawName whitelist blocklist).2) ∧
    (∀ menuItemId name, disjointLists
      (contextMenuUpdateLists menuItemId name whitelist blocklist).1
      (contextMenuUpdateLists menuItemId name whitelist blocklist).2) ∧
    (∀ name, name ≠ "" →
      (addToWhitelist name whitelist blocklist).1 name = true ∧
      (addToWhitelist name whitelist blocklist).2 name = false ∧
      (addToBlocklist name whitelist blocklist).2 name = true ∧
      (addToBlocklist name whitelist blocklist).1 name = false) := by
  have hins : ∀ name (wl bl : String → Bool), disjointLists wl bl →
      disjointLists (listInsert name wl) (listDelete name bl) := by
    intro name wl bl hd n hn
    by_cases he : n = name
    · simp [listInsert, listDelete, he] at hn
    · simp only [listInsert, listDelete, if_neg he] at hn
      exact hd n hn
  have hins' : ∀ name (wl bl : String → Bool), disjointLists wl bl →
      disjointLists (listDelete name wl) (listInsert name bl) := by
    intro name wl bl hd n hn
    by_cases he : n = name
    · simp [listInsert, listDelete, he] at hn
    · simp only [listInsert, listDelete, if_neg he] at hn
      exact hd n hn
  refine ⟨?_, ?_, ?_, ?_, ?_⟩
  · intro name
    by_cases hname : name = ""
    · simpa [addToWhitelist, hname] using h
    · by_cases hbl : blocklist name
      · simpa [addToWhitelist, hname, hbl] using hins name _ _ h
      · intro n hn
        simp only [addToWhitelist, if_neg hname, hbl, Bool.false_eq_true, if_neg] at hn
        by_cases he : n = name
        · subst he
          exact hbl hn.2
        · rw [listInsert, if_neg he] at hn
          exact h n hn
  · intro name
    by_cases hname : name = ""
    · simpa [addToBlocklist, hname] using h
    · by_cases hwl : whitelist name
      · simpa [addToBlocklist, hname, hwl] using hins' name _ _ h
      · intro n hn
        simp only [addToBlocklist, if_neg hname, hwl, Bool.false_eq_true, if_neg] at hn
        by_cases he : n = name
        · subst he
          exact hwl hn.1
        · rw [listInsert, if_neg he] at hn
          exact h n hn
  · intro listType rawName
    by_cases hname : jsTrim rawName = ""
    · simpa [addChannel, hname] using h
    · cases listType
      · simpa [addChannel, hname] using hins (jsTrim rawName) _ _ h
      · simpa [addChannel, hname] using hins' (jsTrim rawName) _ _ h
  · intro menuItemId name
    by_cases hw : menuItemId = "rufilter-whitelist"
    · by_cases hname : name = ""
      · simpa [contextMenuUpdateLists, hw, hname] using h
      · simpa [contextMenuUpdateLists, hw, hname] using hins name _ _ h
    · by_cases hb : menuItemId = "rufilter-blocklist"
      · by_cases hname : name = ""
        · simpa [contextMenuUpdateLists, hw, hb, hname] using h
        · simpa [contextMenuUpdateLists, hw, hb, hname] using hins' name _ _ h
      · simpa [contextMenuUpdateLists, hw, hb] using h
  · intro name hname
    refine ⟨?_, ?_, ?_, ?_⟩
    · simp [addToWhitelist, hname, listInsert]
    · by_cases hbl : blocklist name
      · simp [addToWhitelist, hname, hbl, listDelete]
      · simpa [addToWhitelist, hname, hbl] using hbl
    · simp [addToBlocklist, hname, listInsert]
    · by_cases hwl : whitelist name
      · simp [addToBlocklist, hname, hwl, listDelete]
      · simpa [addToBlocklist, hname, hwl] using hwl

/-- Witness for claim C9: starting from empty (hence disjoint) lists, blocking
channel `Ch` via the context menu leaves the lists disjoint. -/
theorem lists_mutually_exclusive_witness :
    disjointLists
      (contextMenuUpdateLists "rufilter-blocklist" "Ch" (fun _ => false)
        (fun _ => false)).1
      (contextMenuUpdateLists "rufilter-blocklist" "Ch" (fun _ => false)
        (fun _ => false)).2 :=
  (lists_mutually_exclusive (fun _ => false) (fun _ => false)
    (fun _ hn => by simp at hn)).2.2.2.1 "rufilter-blocklist" "Ch"

/-- Claim C2. The batch scheduler is single-flight: a `processVideos` call that
finds `isProcessing` set returns at once with the state untouched (for every
body behaviour, i.e. every `onDecide`), and a call that passes the guard
always ends with `isProcessing` cleared — whether the loop body succeeded or
threw — so the scheduler returns to idle. -/
theorem processVideos_single_flight {ε : Type}
    (onDecide : String → String → Except ε String) (oracle : Oracle)
    (enabled : Bool) (pathname rawQuery : String) (blocklist : String → Bool)
    (st : ContentState) :
    (st.isProcessing = true →
      processVideos onDecide oracle enabled pathname rawQuery blocklist st = st) ∧
    (st.isProcessing = false →
      (processVideos onDecide oracle enabled pathname rawQuery blocklist st).isProcessing
        = false) := by
  constructor
  · intro h
    unfold processVideos
    rw [if_pos (by simp [h])]
  · intro h
    unfold processVideos
    by_cases hg : (!enabled || st.isProcessing) = true
    · rw [if_pos hg]
      exact h
    · rw [if_neg hg]

/-- Witness for claim C2: with a throwing decision body, a run from idle state
ends idle, and a re-entrant call on a busy state is a no-op. -/
theorem processVideos_single_flight_witness :
    (processVideos (fun _ _ => Except.error ()) (fun _ => OracleOutcome.err) true
      "/" "" (fun _ => false)
      ⟨false, [⟨1, "Тест ъ", "Ch", false, false⟩], [], 0, false⟩).isProcessing = false ∧
    processVideos (fun _ _ => Except.error ()) (fun _ => OracleOutcome.err) true
      "/" "" (fun _ => false)
      ⟨true, [⟨1, "Тест ъ", "Ch", false, false⟩], [], 0, false⟩ =
      ⟨true, [⟨1, "Тест ъ", "Ch", false, false⟩], [], 0, false⟩ :=
  ⟨(processVideos_single_flight (fun _ _ => Except.error ()) (fun _ => OracleOutcome.err)
      true "/" "" (fun _ => false)
      ⟨false, [⟨1, "Тест ъ", "Ch", false, false⟩], [], 0, false⟩).2 rfl,
    (processVideos_single_flight (fun _ _ => Except.error ()) (fun _ => OracleOutcome.err)
      true "/" "" (fun _ => false)
      ⟨true, [⟨1, "Тест ъ", "Ch", false, false⟩], [], 0, false⟩).1 rfl⟩

/-- Claim C6. With the JS-object key uniqueness invariant (`Nodup` keys):
`getCachedDetection` treats an entry whose age exceeds 30 days as absent —
it reports `null` and deletes the entry — and returns a younger entry's
result unchanged; `cleanExpiredCache` and the daily alarm handler remove
exactly the entries whose timestamp is older than the 30-day cutoff, leaving
younger entries in place; and the alarm handler ignores other alarms. -/
theorem cache_ttl_spec (now : Nat) (text : String) (c : Cache)
    (hnd : (c.map Prod.fst).Nodup) :
    (∀ e, lookupEntry (hashKey text) c = some e → ttlMs < now - e.timestamp →
      (getCachedDetection now text c).1 = none ∧
      lookupEntry (hashKey text) (getCachedDetection now text c).2 = none) ∧
    (∀ e, lookupEntry (hashKey text) c = some e → now - e.timestamp ≤ ttlMs →
      getCachedDetection now text c = (some e.result, c)) ∧
    (∀ k, lookupEntry k (cleanExpiredCache now c) =
      (match lookupEntry k c with
       | some e => if e.timestamp < now - ttlMs then none else some e
       | none => none)) ∧
    (∀ k, lookupEntry k (alarmCacheCleanup "rufilter-cache-cleanup" now c) =
      (match lookupEntry k c with
       | some e => if e.timestamp < now - ttlMs then none else some e
       | none => none)) ∧
    (∀ name, name ≠ "rufilter-cache-cleanup" → alarmCacheCleanup name now c = c) := by
  have hfilter : ∀ k, lookupEntry k
      (c.filter fun kv => !decide (kv.2.timestamp < now - ttlMs)) =
      (match lookupEntry k c with
       | some e => if e.timestamp < now - ttlMs then none else some e
       | none => none) := by
    intro k
    rw [lookupEntry_filter _ hnd]
    rcases hl : lookupEntry k c with _ | e
    · rfl
    · by_cases hexp : e.timestamp < now - ttlMs
      · simp [hexp]
      · simp [hexp]
  refine ⟨?_, ?_, ?_, ?_, ?_⟩
  · intro e he hexp
    have hgt : now - e.timestamp > ttlMs := hexp
    constructor
    · simp [getCachedDetection, he, hgt]
    · simp only [getCachedDetection, he, hgt, if_pos]
      exact lookupEntry_eraseEntry_self hnd
  · intro e he hyoung
    have hgt : ¬(now - e.timestamp > ttlMs) := not_lt.mpr hyoung
    simp [getCachedDetection, he, hgt]
  · intro k
    exact hfilter k
  · intro k
    have : alarmCacheCleanup "rufilter-cache-cleanup" now c =
        c.filter fun kv => !decide (kv.2.timestamp < now - ttlMs) := by
      simp [alarmCacheCleanup]
    rw [this]
    exact hfilter k
  · intro name hname
    simp [alarmCacheCleanup, hname]

/-- Witness for claim C6: a cache holding one expired and one fresh entry; the
expired one is absent on read and swept, the fresh one survives. -/
theorem cache_ttl_spec_witness :
    (getCachedDetection (ttlMs + 1) "a"
      [(hashKey "a", ⟨"RUSSIAN", 0⟩), (hashKey "b", ⟨"ALLOW", ttlMs⟩)]).1 = none ∧
    lookupEntry (hashKey "a") (cleanExpiredCache (ttlMs + 1)
      [(hashKey "a", ⟨"RUSSIAN", 0⟩), (hashKey "b", ⟨"ALLOW", ttlMs⟩)]) = none ∧
    lookupEntry (hashKey "b") (cleanExpiredCache (ttlMs + 1)
      [(hashKey "a", ⟨"RUSSIAN", 0⟩), (hashKey "b", ⟨"ALLOW", ttlMs⟩)]) =
      some ⟨"ALLOW", ttlMs⟩ := by
  have hspec := cache_ttl_spec (ttlMs + 1) "a"
    [(hashKey "a", ⟨"RUSSIAN", 0⟩), (hashKey "b", ⟨"ALLOW", ttlMs⟩)] (by decide)
  refine ⟨(hspec.1 ⟨"RUSSIAN", 0⟩ (by decide) (by decide)).1, ?_, ?_⟩
  · rw [hspec.2.2.1 (hashKey "a")]
    decide
  · rw [hspec.2.2.1 (hashKey "b")]
    decide

/-! ## Path lemmas for `detectText` -/

theorem detectText_empty (letterMatcher : Char → Bool) (oracle : Oracle) (now : Nat)
    {text : String} (c : Cache) (h : jsTrim text = "") :
    detectText letterMatcher oracle now text c = ("ALLOW", c) := by
  simp [detectText, h]

theorem detectText_miss (letterMatcher : Char → Bool) (oracle : Oracle) (now : Nat)
    {text : String} {c : Cache} (hne : jsTrim text ≠ "")
    (hl : lookupEntry (hashKey (jsTrim text)) c = none) :
    detectText letterMatcher oracle now text c =
      detectTextUncached letterMatcher oracle now (jsTrim text) c := by
  simp [detectText, hne, getCachedDetection, hl]

theorem detectText_expired (letterMatcher : Char → Bool) (oracle : Oracle) (now : Nat)
    {text : String} {c : Cache} {e : CacheEntry} (hne : jsTrim text ≠ "")
    (hl : lookupEntry (hashKey (jsTrim text)) c = some e)
    (hexp : now - e.timestamp > ttlMs) :
    detectText letterMatcher oracle now text c =
      detectTextUncached letterMatcher oracle now (jsTrim text)
        (eraseEntry (hashKey (jsTrim text)) c) := by
  simp [detectText, hne, getCachedDetection, hl, hexp]

theorem detectText_hit (letterMatcher : Char → Bool) (oracle : Oracle) (now : Nat)
    {text : String} {c : Cache} {e : CacheEntry} (hne : jsTrim text ≠ "")
    (hl : lookupEntry (hashKey (jsTrim text)) c = some e)
    (hfresh : ¬(now - e.timestamp > ttlMs)) (hres : e.result ≠ "") :
    detectText letterMatcher oracle now text c = (e.result, c) := by
  simp [detectText, hne, getCachedDetection, hl, hfresh, hres]

theorem detectText_hit_falsy (letterMatcher : Char → Bool) (oracle : Oracle) (now : Nat)
    {text : String} {c : Cache} {e : CacheEntry} (hne : jsTrim text ≠ "")
    (hl : lookupEntry (hashKey (jsTrim text)) c = some e)
    (hfresh : ¬(now - e.timestamp > ttlMs)) (hres : e.result = "") :
    detectText letterMatcher oracle now text c =
      detectTextUncached letterMatcher oracle now (jsTrim text) c := by
  simp [detectText, hne, getCachedDetection, hl, hfresh, hres]

/-- Hitting `detectText` on a cache whose entry for the text's key was just written
with timestamp `now` and a non-empty result is a cache hit returning that
result, for any letter predicate and any oracle. -/
theorem detectText_after_write (letterMatcher : Char → Bool) (oracle : Oracle)
    (now : Nat) {text : String} (hne : jsTrim text ≠ "") {r : String}
    (hr : r ≠ "") (c : Cache) :
    detectText letterMatcher oracle now text
        (insertEntry (hashKey (jsTrim text)) ⟨r, now⟩ c) =
      (r, insertEntry (hashKey (jsTrim text)) ⟨r, now⟩ c) :=
  detectText_hit letterMatcher oracle now hne
    (lookupEntry_insertEntry_self _ _ _) (by simp) hr

/-- Claim C7. `detectText` is idempotent: the second of two back-to-back calls
on the same text returns exactly the first call's result and leaves the cache
exactly as the first call left it, for *any* letter predicate and *any*
oracle in the second call — so the second call's value never depends on the
oracle (the tiers are not consulted; the first call's tier-1 or tier-2
result, including `ALLOW` from oracle failure, is served from the cache). -/
theorem detectText_idempotent (letterMatcher letterMatcher2 : Char → Bool)
    (oracle oracle2 : Oracle) (now : Nat) (text : String) (c : Cache) :
    detectText letterMatcher2 oracle2 now text
        (detectText letterMatcher oracle now text c).2 =
      detectText letterMatcher oracle now text c := by
  by_cases hempty : jsTrim text = ""
  · rw [detectText_empty letterMatcher oracle now c hempty]
    exact detectText_empty letterMatcher2 oracle2 now c hempty
  · rcases hl : lookupEntry (hashKey (jsTrim text)) c with _ | e
    · obtain ⟨r, hu, hr3⟩ := detectTextUncached_eq letterMatcher oracle now (jsTrim text) c
      have hrne : r ≠ "" := by rcases hr3 with rfl | rfl | rfl <;> decide
      rw [detectText_miss letterMatcher oracle now hempty hl, hu]
      exact detectText_after_write letterMatcher2 oracle2 now hempty hrne c
    · by_cases hexp : now - e.timestamp > ttlMs
      · obtain ⟨r, hu, hr3⟩ := detectTextUncached_eq letterMatcher oracle now (jsTrim text)
          (eraseEntry (hashKey (jsTrim text)) c)
        have hrne : r ≠ "" := by rcases hr3 with rfl | rfl | rfl <;> decide
        rw [detectText_expired letterMatcher oracle now hempty hl hexp, hu]
        exact detectText_after_write letterMatcher2 oracle2 now hempty hrne _
      · by_cases hres : e.result = ""
        · obtain ⟨r, hu, hr3⟩ :=
            detectTextUncached_eq letterMatcher oracle now (jsTrim text) c
          have hrne : r ≠ "" := by rcases hr3 with rfl | rfl | rfl <;> decide
          rw [detectText_hit_falsy letterMatcher oracle now hempty hl hexp hres, hu]
          exact detectText_after_write letterMatcher2 oracle2 now hempty hrne c
        · rw [detectText_hit letterMatcher oracle now hempty hl hexp hres]
          exact detectText_hit letterMatcher2 oracle2 now hempty hl hexp hres

/-- Every cache entry's stored result is one of the three labels. -/
def WFCache (c : Cache) : Prop :=
  ∀ kv ∈ c, kv.2.result = "RUSSIAN" ∨ kv.2.result = "UKRAINIAN" ∨
    kv.2.result = "ALLOW"

/-- Claim C10. `detectText` is total by construction (it is a Lean function on
arbitrary strings, caches, oracles and letter predicates), and starting from
any well-formed cache — in particular the empty one — it returns one of
exactly the labels `RUSSIAN`, `UKRAINIAN`, `ALLOW` and leaves the cache
well-formed, so every value it writes and every later cache read is one of
these three labels or absent. -/
theorem detectText_range (letterMatcher : Char → Bool) (oracle : Oracle)
    (now : Nat) (text : String) (c : Cache) (hwf : WFCache c) :
    ((detectText letterMatcher oracle now text c).1 = "RUSSIAN" ∨
      (detectText letterMatcher oracle now text c).1 = "UKRAINIAN" ∨
      (detectText letterMatcher oracle now text c).1 = "ALLOW") ∧
    WFCache (detectText letterMatcher oracle now text c).2 := by
  by_cases hempty : jsTrim text = ""
  · rw [detectText_empty letterMatcher oracle now c hempty]
    exact ⟨Or.inr (Or.inr rfl), hwf⟩
  · have hwfins : ∀ (r : String) (X : Cache), WFCache X →
        (r = "RUSSIAN" ∨ r = "UKRAINIAN" ∨ r = "ALLOW") →
        WFCache (insertEntry (hashKey (jsTrim text)) ⟨r, now⟩ X) := by
      intro r X hX hr kv hkv
      rcases mem_insertEntry hkv with rfl | hkv'
      · exact hr
      · exact hX kv hkv'
    rcases hl : lookupEntry (hashKey (jsTrim text)) c with _ | e
    · obtain ⟨r, hu, hr3⟩ :=
        detectTextUncached_eq letterMatcher oracle now (jsTrim text) c
      rw [detectText_miss letterMatcher oracle now hempty hl, hu]
      exact ⟨hr3, hwfins r c hwf hr3⟩
    · by_cases hexp : now - e.timestamp > ttlMs
      · obtain ⟨r, hu, hr3⟩ := detectTextUncached_eq letterMatcher oracle now
          (jsTrim text) (eraseEntry (hashKey (jsTrim text)) c)
        rw [detectText_expired letterMatcher oracle now hempty hl hexp, hu]
        exact ⟨hr3, hwfins r _ (fun kv hkv => hwf kv (mem_eraseEntry hkv)) hr3⟩
      · by_cases hres : e.result = ""
        · obtain ⟨r, hu, hr3⟩ :=
            detectTextUncached_eq letterMatcher oracle now (jsTrim text) c
          rw [detectText_hit_falsy letterMatcher oracle now hempty hl hexp hres, hu]
          exact ⟨hr3, hwfins r c hwf hr3⟩
        · rw [detectText_hit letterMatcher oracle now hempty hl hexp hres]
          exact ⟨hwf _ (mem_of_lookupEntry hl), hwf⟩

/-- Witness for claim C10: on the empty cache, a mixed-script text classifies
to one of the three labels and leaves the cache well-formed. -/
theorem detectText_range_witness :
    ((detectText asciiOrCyrillicLetter (fun _ => OracleOutcome.err) 0
        "Привіт hello" []).1 = "RUSSIAN" ∨
      (detectText asciiOrCyrillicLetter (fun _ => OracleOutcome.err) 0
        "Привіт hello" []).1 = "UKRAINIAN" ∨
      (detectText asciiOrCyrillicLetter (fun _ => OracleOutcome.err) 0
        "Привіт hello" []).1 = "ALLOW") ∧
    WFCache (detectText asciiOrCyrillicLetter (fun _ => OracleOutcome.err) 0
      "Привіт hello" []).2 :=
  detectText_range asciiOrCyrillicLetter (fun _ => OracleOutcome.err) 0
    "Привіт hello" [] (fun kv hkv => absurd hkv (List.not_mem_nil kv))

/-- Claim C1, counterexample. The claim quantifies over *every* input text and
promises `UKRAINIAN` whenever a protected-only codepoint is present,
regardless of the rest of the pipeline state; but `detectText` consults the
cache first, keyed by a 32-bit FNV-1a hash.  The texts `іwQNVBZtETL`
(containing protected-only `і`) and `ыYJhH8eoqYc` (suppressed-only `ы`, no
protected codepoints) collide on the hash (both key to 3584829310 in base
36), so after classifying the second text from the empty cache — a state
reachable by ordinary operation — the first text is classified `RUSSIAN`
from the colliding cache entry, not `UKRAINIAN`. -/
theorem detectText_protected_counterexample :
    hasUkrainianOnly "іwQNVBZtETL" = true ∧
    hashKey "іwQNVBZtETL" = hashKey "ыYJhH8eoqYc" ∧
    (detectText asciiOrCyrillicLetter (fun _ => OracleOutcome.err) 0 "ыYJhH8eoqYc"
      []).1 = "RUSSIAN" ∧
    (detectText asciiOrCyrillicLetter (fun _ => OracleOutcome.err) 0 "іwQNVBZtETL"
      (detectText asciiOrCyrillicLetter (fun _ => OracleOutcome.err) 0 "ыYJhH8eoqYc"
        []).2).1 = "RUSSIAN" := by
  refine ⟨by decide, by decide, by decide, by decide⟩

/-- Claim C1, amended. For every input text containing at least one
protected-only (Ukrainian-unique) codepoint, provided the cache holds no
entry under the trimmed text's hash key (e.g. on first classification of the
text from an empty or non-colliding cache), `detectText` returns `UKRAINIAN`
— regardless of any suppressed-only codepoints or of the Cyrillic-letter
ratio elsewhere in the same text, and for any oracle. -/
theorem detectText_protected_uncached (letterMatcher : Char → Bool)
    (oracle : Oracle) (now : Nat) (text : String) (c : Cache)
    (hukr : hasUkrainianOnly text = true)
    (hmiss : lookupEntry (hashKey (jsTrim text)) c = none) :
    (detectText letterMatcher oracle now text c).1 = "UKRAINIAN" := by
  have hne := jsTrim_ne_empty_of_hasUkrainianOnly hukr
  rw [detectText_miss letterMatcher oracle now hne hmiss]
  have hch : charHeuristic letterMatcher (jsTrim text) = some "UKRAINIAN" := by
    unfold charHeuristic
    rw [if_pos (hasUkrainianOnly_jsTrim hukr)]
  unfold detectTextUncached
  rw [hch]

/-- Witness for the amended claim C1: a text with both a protected-only
codepoint (`і`) and a suppressed-only codepoint (`ы`) classifies `UKRAINIAN`
on a cache miss. -/
theorem detectText_protected_uncached_witness :
    hasUkrainianOnly "Привіт ы" = true ∧
    hasRussianOnly "Привіт ы" = true ∧
    (detectText asciiOrCyrillicLetter (fun _ => OracleOutcome.err) 0
      "Привіт ы" []).1 = "UKRAINIAN" :=
  ⟨by decide, by decide,
    detectText_protected_uncached asciiOrCyrillicLetter (fun _ => OracleOutcome.err)
      0 "Привіт ы" [] (by decide) rfl⟩

/-- Claim C4. For an item whose channel name is in neither list (or is empty),
`shouldFilter` returns `BLOCK` only when the title's classification is
`RUSSIAN`, and whenever the title's classification is anything else the
verdict is `ALLOW` — so a channel name classified `RUSSIAN` with a
non-`RUSSIAN` title never blocks. -/
theorem shouldFilter_title_decisive (letterMatcher : Char → Bool) (oracle : Oracle)
    (now : Nat) (title channelName : String) (whitelist blocklist : String → Bool)
    (c : Cache)
    (hch : channelName = "" ∨
      (whitelist channelName = false ∧ blocklist channelName = false)) :
    ((shouldFilter letterMatcher oracle now title channelName whitelist blocklist c).1
        = "BLOCK" →
      (detectText letterMatcher oracle now title c).1 = "RUSSIAN") ∧
    ((detectText letterMatcher oracle now title c).1 ≠ "RUSSIAN" →
      (shouldFilter letterMatcher oracle now title channelName whitelist blocklist c).1
        = "ALLOW") := by
  have hg1 : ¬(channelName ≠ "" ∧ whitelist channelName = true) := by
    rcases hch with h | h
    · exact fun hc => hc.1 h
    · exact fun hc => by rw [h.1] at hc; cases hc.2
  have hg2 : ¬(channelName ≠ "" ∧ blocklist channelName = true) := by
    rcases hch with h | h
    · exact fun hc => hc.1 h
    · exact fun hc => by rw [h.2] at hc; cases hc.2
  unfold shouldFilter
  rw [if_neg hg1, if_neg hg2]
  dsimp only
  by_cases h1 : (detectText letterMatcher oracle now title c).1 = "UKRAINIAN" ∨
      (detectText letterMatcher oracle now channelName
        (detectText letterMatcher oracle now title c).2).1 = "UKRAINIAN"
  · rw [if_pos h1]
    refine ⟨fun hb => ?_, fun _ => rfl⟩
    simp at hb
  · rw [if_neg h1]
    by_cases h2 : (detectText letterMatcher oracle now title c).1 = "RUSSIAN"
    · rw [if_pos h2]
      exact ⟨fun _ => h2, fun hn => absurd h2 hn⟩
    · rw [if_neg h2]
      refine ⟨fun hb => ?_, fun _ => rfl⟩
      simp at hb

/-- Witness for claim C4: a channel name that classifies `RUSSIAN` (it contains
`ъ`) with a title that classifies `ALLOW` (plain English) yields `ALLOW` for
an unlisted channel. -/
theorem shouldFilter_title_decisive_witness :
    (detectText asciiOrCyrillicLetter (fun _ => OracleOutcome.err) 0 "Подъезд TV"
      []).1 = "RUSSIAN" ∧
    (detectText asciiOrCyrillicLetter (fun _ => OracleOutcome.err) 0 "hello world"
      []).1 ≠ "RUSSIAN" ∧
    (shouldFilter asciiOrCyrillicLetter (fun _ => OracleOutcome.err) 0 "hello world"
      "Подъезд TV" (fun _ => false) (fun _ => false) []).1 = "ALLOW" :=
  ⟨by decide, by decide,
    (shouldFilter_title_decisive asciiOrCyrillicLetter (fun _ => OracleOutcome.err) 0
      "hello world" "Подъезд TV" (fun _ => false) (fun _ => false) []
      (Or.inr ⟨rfl, rfl⟩)).2 (by decide)⟩

/-! ## Page lemmas for the batch loop -/

theorem lookupContainer_id {i : Nat} {cont : Container} :
    ∀ {p : List Container}, lookupContainer i p = some cont → cont.id = i
  | [], h => by simp [lookupContainer] at h
  | c :: rest, h => by
    by_cases hc : c.id = i
    · simp only [lookupContainer, if_pos hc] at h
      rw [← Option.some_inj.mp h]
      exact hc
    · simp only [lookupContainer, if_neg hc] at h
      exact lookupContainer_id h

theorem lookupContainer_map (f : Container → Container)
    (hf : ∀ c, (f c).id = c.id) (i : Nat) :
    ∀ p : List Container, lookupContainer i (p.map f) = (lookupContainer i p).map f
  | [] => rfl
  | c :: rest => by
    by_cases hc : c.id = i
    · simp only [List.map_cons, lookupContainer, hf c, if_pos hc, Option.map_some']
    · simp only [List.map_cons, lookupContainer, hf c, if_neg hc]
      exact lookupContainer_map f hf i rest

theorem updateContainer_id_preserved (cont' : Container) :
    ∀ c : Container, ((fun c => if c.id = cont'.id then cont' else c) c).id = c.id := by
  intro c
  by_cases hc : c.id = cont'.id
  · simp [hc]
  · simp [hc]

theorem hideVideo_id_preserved (i : Nat) :
    ∀ c : Container,
      ((fun c => if c.id = i then { c with hidden := true } else c) c).id = c.id := by
  intro c
  by_cases hc : c.id = i
  · simp [hc]
  · simp [hc]

/-- Looking up any identity after `updateContainer` with a container whose
`id`, `title` and `channelName` agree with what that identity already held
yields a container with the same `title` and `channelName` as before. -/
theorem lookupContainer_updateContainer_content {cont₀ cont' : Container}
    (hid : cont'.id = cont₀.id) (htitle : cont'.title = cont₀.title)
    (hch : cont'.channelName = cont₀.channelName) {p : List Container}
    (h0 : lookupContainer cont'.id p = some cont₀) {j : Nat} {c' : Container}
    (h : lookupContainer j (updateContainer cont' p) = some c') :
    ∃ c, lookupContainer j p = some c ∧ c.title = c'.title ∧
      c.channelName = c'.channelName := by
  unfold updateContainer at h
  rw [lookupContainer_map _ (updateContainer_id_preserved cont') j p] at h
  rcases hj : lookupContainer j p with _ | c
  · rw [hj] at h
    cases h
  · rw [hj, Option.map_some'] at h
    have h' : (if c.id = cont'.id then cont' else c) = c' := Option.some_inj.mp h
    by_cases hcid : c.id = cont'.id
    · have hji : j = cont'.id := by rw [← lookupContainer_id hj, hcid]
      have hc0 : c = cont₀ := by
        have hx := hj
        rw [hji, h0] at hx
        exact (Option.some_inj.mp hx).symm
      rw [if_pos hcid] at h'
      refine ⟨c, rfl, ?_, ?_⟩
      · rw [← h', hc0, htitle]
      · rw [← h', hc0, hch]
    · rw [if_neg hcid] at h'
      exact ⟨c, rfl, by rw [h'], by rw [h']⟩

/-- The map `hideVideo` never changes any container's `title` or `channelName`. -/
theorem lookupContainer_hideVideo_content {i j : Nat} {p : List Container}
    {c' : Container} (h : lookupContainer j (hideVideo i p) = some c') :
    ∃ c, lookupContainer j p = some c ∧ c.title = c'.title ∧
      c.channelName = c'.channelName := by
  unfold hideVideo at h
  rw [lookupContainer_map _ (hideVideo_id_preserved i) j p] at h
  rcases hj : lookupContainer j p with _ | c
  · rw [hj] at h
    cases h
  · rw [hj, Option.map_some'] at h
    have h' : (if c.id = i then { c with hidden := true } else c) = c' :=
      Option.some_inj.mp h
    by_cases hcid : c.id = i
    · rw [if_pos hcid] at h'
      exact ⟨c, rfl, by rw [← h'], by rw [← h']⟩
    · rw [if_neg hcid] at h'
      exact ⟨c, rfl, by rw [h'], by rw [h']⟩

theorem lookupContainer_update_other {cont' : Container} {p : List Container}
    {i : Nat} {cont : Container} (h : lookupContainer i p = some cont)
    (hne : cont'.id ≠ i) :
    lookupContainer i (updateContainer cont' p) = some cont := by
  unfold updateContainer
  rw [lookupContainer_map _ (updateContainer_id_preserved cont'), h, Option.map_some']
  have hcc : ¬(cont.id = cont'.id) := by
    rw [lookupContainer_id h]
    exact fun hh => hne hh.symm
  rw [if_neg hcc]

theorem lookupContainer_hide_other {i₀ i : Nat} {p : List Container}
    {cont : Container} (h : lookupContainer i p = some cont) (hne : i₀ ≠ i) :
    lookupContainer i (hideVideo i₀ p) = some cont := by
  unfold hideVideo
  rw [lookupContainer_map _ (hideVideo_id_preserved i₀), h, Option.map_some']
  have hcc : ¬(cont.id = i₀) := by
    rw [lookupContainer_id h]
    exact fun hh => hne hh.symm
  rw [if_neg hcc]

theorem mem_findUnprocessedVideos {i : Nat} {cont : Container} :
    ∀ {p : List Container}, lookupContainer i p = some cont →
      cont.checkedAttr = false → i ∈ findUnprocessedVideos p
  | [], h, _ => by simp [lookupContainer] at h
  | c :: rest, h, hattr => by
    by_cases hc : c.id = i
    · simp only [lookupContainer, if_pos hc] at h
      have hceq : c = cont := Option.some_inj.mp h
      subst hceq
      simp only [findUnprocessedVideos, List.filter_cons, hattr, Bool.not_false,
        if_pos, List.map_cons]
      exact List.mem_cons.mpr (Or.inl hc.symm)
    · simp only [lookupContainer, if_neg hc] at h
      have hrest := mem_findUnprocessedVideos h hattr (p := rest)
      by_cases hca : c.checkedAttr
      · simpa [findUnprocessedVideos, List.filter_cons, hca] using hrest
      · simp only [Bool.not_eq_true] at hca
        simp only [findUnprocessedVideos, List.filter_cons, hca, Bool.not_false,
          if_pos, List.map_cons]
        exact List.mem_cons.mpr (Or.inr hrest)

/-- An item whose extraction fails (empty title) is never modified by the
batch loop — neither its attributes nor its membership in the processed set
change — regardless of the id list, the decision function or the bypass
mode. -/
theorem loopItems_unextractable {ε : Type}
    (onDecide : String → String → Except ε String) (skip : Bool)
    (blocklist : String → Bool) (i : Nat) (cont : Container)
    (htitle : cont.title = "") :
    ∀ (ids : List Nat) (st : LoopState), lookupContainer i st.page = some cont →
      lookupContainer i (loopItems onDecide skip blocklist ids st).1.page = some cont ∧
      (i ∉ st.processed →
        i ∉ (loopItems onDecide skip blocklist ids st).1.processed) := by
  intro ids
  induction ids with
  | nil =>
    intro st h
    exact ⟨h, fun hn => hn⟩
  | cons i₀ rest ih =>
    intro st h
    rcases h0 : lookupContainer i₀ st.page with _ | cont₀
    · rw [show loopItems onDecide skip blocklist (i₀ :: rest) st =
          loopItems onDecide skip blocklist rest st from by simp [loopItems, h0]]
      exact ih st h
    · by_cases hproc : i₀ ∈ st.processed
      · rw [show loopItems onDecide skip blocklist (i₀ :: rest) st =
            loopItems onDecide skip blocklist rest st from by
          simp [loopItems, h0, hproc]]
        exact ih st h
      · by_cases ht0 : cont₀.title = ""
        · rw [show loopItems onDecide skip blocklist (i₀ :: rest) st =
              loopItems onDecide skip blocklist rest st from by
            simp [loopItems, h0, hproc, extractMetadata, ht0]]
          exact ih st h
        · have hii : i₀ ≠ i := by
            intro hEq
            rw [hEq, h] at h0
            exact ht0 (by rw [Option.some_inj.mp h0.symm, htitle])
          have hext : extractMetadata cont₀ =
              (some (cont₀.title, cont₀.channelName),
                { cont₀ with checkedAttr := true }) := by
            simp [extractMetadata, ht0]
          have hid' : ({ cont₀ with checkedAttr := true } : Container).id ≠ i := by
            simpa using fun hEq => hii ((lookupContainer_id h0) ▸ hEq)
          have hup : lookupContainer i
              (updateContainer { cont₀ with checkedAttr := true } st.page) =
              some cont := lookupContainer_update_other h hid'
          have hmem : i ∉ st.processed → i ∉ i₀ :: st.processed := fun hn hmem => by
            rcases List.mem_cons.mp hmem with hEq | hmem'
            · exact hii hEq.symm
            · exact hn hmem'
          by_cases hskip : skip
          · by_cases hb : cont₀.channelName ≠ "" ∧ blocklist cont₀.channelName = true
            · rw [show loopItems onDecide skip blocklist (i₀ :: rest) st =
                  loopItems onDecide skip blocklist rest
                    ⟨hideVideo i₀ (updateContainer { cont₀ with checkedAttr := true }
                      st.page), i₀ :: st.processed, st.filteredCount + 1⟩ from by
                simp [loopItems, h0, hproc, hext, hskip, hb]]
              have hfin := ih ⟨hideVideo i₀ (updateContainer
                  { cont₀ with checkedAttr := true } st.page), i₀ :: st.processed,
                  st.filteredCount + 1⟩ (lookupContainer_hide_other hup hii)
              exact ⟨hfin.1, fun hn => hfin.2 (hmem hn)⟩
            · rw [show loopItems onDecide skip blocklist (i₀ :: rest) st =
                  loopItems onDecide skip blocklist rest
                    ⟨updateContainer { cont₀ with checkedAttr := true } st.page,
                      i₀ :: st.processed, st.filteredCount⟩ from by
                simp [loopItems, h0, hproc, hext, hskip, hb]]
              have hfin := ih ⟨updateContainer { cont₀ with checkedAttr := true }
                  st.page, i₀ :: st.processed, st.filteredCount⟩ hup
              exact ⟨hfin.1, fun hn => hfin.2 (hmem hn)⟩
          · rcases hd : onDecide cont₀.title cont₀.channelName with e | verdict
            · rw [show loopItems onDecide skip blocklist (i₀ :: rest) st =
                  (⟨updateContainer { cont₀ with checkedAttr := true } st.page,
                    i₀ :: st.processed, st.filteredCount⟩, some e) from by
                simp [loopItems, h0, hproc, hext, hskip, hd]]
              exact ⟨hup, fun hn => hmem hn⟩
            · by_cases hv : verdict = "BLOCK"
              · rw [show loopItems onDecide skip blocklist (i₀ :: rest) st =
                    loopItems onDecide skip blocklist rest
                      ⟨hideVideo i₀ (updateContainer { cont₀ with checkedAttr := true }
                        st.page), i₀ :: st.processed, st.filteredCount + 1⟩ from by
                  simp [loopItems, h0, hproc, hext, hskip, hd, hv]]
                have hfin := ih ⟨hideVideo i₀ (updateContainer
                    { cont₀ with checkedAttr := true } st.page), i₀ :: st.processed,
                    st.filteredCount + 1⟩ (lookupContainer_hide_other hup hii)
                exact ⟨hfin.1, fun hn => hfin.2 (hmem hn)⟩
              · rw [show loopItems onDecide skip blocklist (i₀ :: rest) st =
                    loopItems onDecide skip blocklist rest
                      ⟨updateContainer { cont₀ with checkedAttr := true } st.page,
                        i₀ :: st.processed, st.filteredCount⟩ from by
                  simp [loopItems, h0, hproc, hext, hskip, hd, hv]]
                have hfin := ih ⟨updateContainer { cont₀ with checkedAttr := true }
                    st.page, i₀ :: st.processed, st.filteredCount⟩ hup
                exact ⟨hfin.1, fun hn => hfin.2 (hmem hn)⟩

/-- Whenever the batch loop aborts with an error, the error arose from the
decision call of an item that had already been successfully extracted, and
that item is already marked processed — in the processed set and via the
checked attribute — in the state the loop leaves behind. -/
theorem loopItems_error_marked {ε : Type}
    (onDecide : String → String → Except ε String) (skip : Bool)
    (blocklist : String → Bool) :
    ∀ (ids : List Nat) (st st' : LoopState) (e : ε),
      loopItems onDecide skip blocklist ids st = (st', some e) →
      ∃ i t ch, (∃ c, lookupContainer i st.page = some c ∧ c.title = t ∧
          c.channelName = ch) ∧
        t ≠ "" ∧ onDecide t ch = Except.error e ∧ i ∈ st'.processed ∧
        ∃ c', lookupContainer i st'.page = some c' ∧ c'.checkedAttr = true := by
  intro ids
  induction ids with
  | nil =>
    intro st st' e h
    simp [loopItems] at h
  | cons i₀ rest ih =>
    intro st st' e h
    rcases h0 : lookupContainer i₀ st.page with _ | cont₀
    · rw [show loopItems onDecide skip blocklist (i₀ :: rest) st =
          loopItems onDecide skip blocklist rest st from by simp [loopItems, h0]] at h
      exact ih st st' e h
    · by_cases hproc : i₀ ∈ st.processed
      · rw [show loopItems onDecide skip blocklist (i₀ :: rest) st =
            loopItems onDecide skip blocklist rest st from by
          simp [loopItems, h0, hproc]] at h
        exact ih st st' e h
      · by_cases ht0 : cont₀.title = ""
        · rw [show loopItems onDecide skip blocklist (i₀ :: rest) st =
              loopItems onDecide skip blocklist rest st from by
            simp [loopItems, h0, hproc, extractMetadata, ht0]] at h
          exact ih st st' e h
        · have hext : extractMetadata cont₀ =
              (some (cont₀.title, cont₀.channelName),
                { cont₀ with checkedAttr := true }) := by
            simp [extractMetadata, ht0]
          have hi₀ : cont₀.id = i₀ := lookupContainer_id h0
          have h0' : lookupContainer
              ({ cont₀ with checkedAttr := true } : Container).id st.page =
              some cont₀ := by
            show lookupContainer cont₀.id st.page = some cont₀
            rw [hi₀]
            exact h0
          have htransport : ∀ (p' : List Container),
              (∀ j c', lookupContainer j p' = some c' →
                ∃ c, lookupContainer j
                    (updateContainer { cont₀ with checkedAttr := true } st.page) =
                    some c ∧ c.title = c'.title ∧ c.channelName = c'.channelName) →
              True := fun _ _ => trivial
          have hback : ∀ {j : Nat} {c' : Container},
              lookupContainer j
                (updateContainer { cont₀ with checkedAttr := true } st.page) =
                some c' →
              ∃ c, lookupContainer j st.page = some c ∧ c.title = c'.title ∧
                c.channelName = c'.channelName :=
            fun {j c'} hj => @lookupContainer_updateContainer_content cont₀
              { cont₀ with checkedAttr := true } rfl rfl rfl st.page h0' j c' hj
          have hbackHide : ∀ {j : Nat} {c' : Container},
              lookupContainer j (hideVideo i₀
                (updateContainer { cont₀ with checkedAttr := true } st.page)) =
                some c' →
              ∃ c, lookupContainer j st.page = some c ∧ c.title = c'.title ∧
                c.channelName = c'.channelName := by
            intro j c' hj
            obtain ⟨c₁, hc₁, ht₁, hch₁⟩ := lookupContainer_hideVideo_content hj
            obtain ⟨c₂, hc₂, ht₂, hch₂⟩ := hback hc₁
            exact ⟨c₂, hc₂, by rw [ht₂, ht₁], by rw [hch₂, hch₁]⟩
          by_cases hskip : skip
          · by_cases hb : cont₀.channelName ≠ "" ∧ blocklist cont₀.channelName = true
            · rw [show loopItems onDecide skip blocklist (i₀ :: rest) st =
                  loopItems onDecide skip blocklist rest
                    ⟨hideVideo i₀ (updateContainer { cont₀ with checkedAttr := true }
                      st.page), i₀ :: st.processed, st.filteredCount + 1⟩ from by
                simp [loopItems, h0, hproc, hext, hskip, hb]] at h
              obtain ⟨i, t, ch, ⟨c_mid, hmid, hmt, hmc⟩, hne, hd, hp, hattr⟩ :=
                ih _ st' e h
              obtain ⟨c, hc, hct, hcc⟩ := hbackHide hmid
              exact ⟨i, t, ch, ⟨c, hc, by rw [hct, hmt], by rw [hcc, hmc]⟩,
                hne, hd, hp, hattr⟩
            · rw [show loopItems onDecide skip blocklist (i₀ :: rest) st =
                  loopItems onDecide skip blocklist rest
                    ⟨updateContainer { cont₀ with checkedAttr := true } st.page,
                      i₀ :: st.processed, st.filteredCount⟩ from by
                simp [loopItems, h0, hproc, hext, hskip, hb]] at h
              obtain ⟨i, t, ch, ⟨c_mid, hmid, hmt, hmc⟩, hne, hd, hp, hattr⟩ :=
                ih _ st' e h
              obtain ⟨c, hc, hct, hcc⟩ := hback hmid
              exact ⟨i, t, ch, ⟨c, hc, by rw [hct, hmt], by rw [hcc, hmc]⟩,
                hne, hd, hp, hattr⟩
          · rcases hd : onDecide cont₀.title cont₀.channelName with e₀ | verdict
            · rw [show loopItems onDecide skip blocklist (i₀ :: rest) st =
                  (⟨updateContainer { cont₀ with checkedAttr := true } st.page,
                    i₀ :: st.processed, st.filteredCount⟩, some e₀) from by
                simp [loopItems, h0, hproc, hext, hskip, hd]] at h
              have hst : st' = ⟨updateContainer { cont₀ with checkedAttr := true }
                  st.page, i₀ :: st.processed, st.filteredCount⟩ :=
                (congrArg Prod.fst h).symm
              have he : e₀ = e := by
                have hsnd := congrArg Prod.snd h
                simpa using hsnd
              refine ⟨i₀, cont₀.title, cont₀.channelName, ⟨cont₀, h0, rfl, rfl⟩,
                ht0, by rw [← he]; exact hd, ?_, ?_⟩
              · rw [hst]
                exact List.mem_cons_self i₀ st.processed
              · rw [hst]
                refine ⟨{ cont₀ with checkedAttr := true }, ?_, rfl⟩
                show lookupContainer i₀
                  (updateContainer { cont₀ with checkedAttr := true } st.page) =
                  some { cont₀ with checkedAttr := true }
                unfold updateContainer
                rw [lookupContainer_map _ (updateContainer_id_preserved _), h0,
                  Option.map_some']
                simp
            · by_cases hv : verdict = "BLOCK"
              · rw [show loopItems onDecide skip blocklist (i₀ :: rest) st =
                    loopItems onDecide skip blocklist rest
                      ⟨hideVideo i₀ (updateContainer { cont₀ with checkedAttr := true }
                        st.page), i₀ :: st.processed, st.filteredCount + 1⟩ from by
                  simp [loopItems, h0, hproc, hext, hskip, hd, hv]] at h
                obtain ⟨i, t, ch, ⟨c_mid, hmid, hmt, hmc⟩, hne, hdd, hp, hattr⟩ :=
                  ih _ st' e h
                obtain ⟨c, hc, hct, hcc⟩ := hbackHide hmid
                exact ⟨i, t, ch, ⟨c, hc, by rw [hct, hmt], by rw [hcc, hmc]⟩,
                  hne, hdd, hp, hattr⟩
              · rw [show loopItems onDecide skip blocklist (i₀ :: rest) st =
                    loopItems onDecide skip blocklist rest
                      ⟨updateContainer { cont₀ with checkedAttr := true } st.page,
                        i₀ :: st.processed, st.filteredCount⟩ from by
                  simp [loopItems, h0, hproc, hext, hskip, hd, hv]] at h
                obtain ⟨i, t, ch, ⟨c_mid, hmid, hmt, hmc⟩, hne, hdd, hp, hattr⟩ :=
                  ih _ st' e h
                obtain ⟨c, hc, hct, hcc⟩ := hback hmid
                exact ⟨i, t, ch, ⟨c, hc, by rw [hct, hmt], by rw [hcc, hmc]⟩,
                  hne, hdd, hp, hattr⟩

/-- Claim C8. In every batch run: an item whose extraction fails (empty title)
is not marked processed by either mechanism — its container, including its
`data-ru-filter-checked` attribute, is untouched and its identity is not
added to the processed set — and it remains discoverable as unprocessed for
the next run; and every successfully extracted item is marked processed
before its decision is computed, so when the decision call throws, the item
that caused the error is already marked in both mechanisms in the state the
run leaves behind. -/
theorem processVideos_extraction_marking {ε : Type}
    (onDecide : String → String → Except ε String) (oracle : Oracle)
    (enabled : Bool) (pathname rawQuery : String) (blocklist : String → Bool) :
    (∀ (st : ContentState) (i : Nat) (cont : Container),
      lookupContainer i st.page = some cont → cont.title = "" →
      lookupContainer i
        (processVideos onDecide oracle enabled pathname rawQuery blocklist st).page =
        some cont ∧
      (i ∉ st.processed → i ∉
        (processVideos onDecide oracle enabled pathname rawQuery blocklist st).processed) ∧
      (cont.checkedAttr = false → i ∈ findUnprocessedVideos
        (processVideos onDecide oracle enabled pathname rawQuery blocklist st).page)) ∧
    (∀ (skip : Bool) (ids : List Nat) (st st' : LoopState) (e : ε),
      loopItems onDecide skip blocklist ids st = (st', some e) →
      ∃ i t ch, (∃ c, lookupContainer i st.page = some c ∧ c.title = t ∧
          c.channelName = ch) ∧
        t ≠ "" ∧ onDecide t ch = Except.error e ∧ i ∈ st'.processed ∧
        ∃ c', lookupContainer i st'.page = some c' ∧ c'.checkedAttr = true) := by
  constructor
  · intro st i cont h htitle
    by_cases hg : (!enabled || st.isProcessing) = true
    · rw [show processVideos onDecide oracle enabled pathname rawQuery blocklist st =
          st from by simp [processVideos, hg]]
      exact ⟨h, fun hn => hn, fun hattr => mem_findUnprocessedVideos h hattr⟩
    · have hrunA : ∀ skip : Bool,
          lookupContainer i
            (processVideosRun onDecide skip blocklist st.page st.processed).1.page =
            some cont ∧
          (i ∉ st.processed → i ∉ (processVideosRun onDecide skip blocklist st.page
            st.processed).1.processed) := by
        intro skip
        unfold processVideosRun
        dsimp only
        by_cases hempt : (findUnprocessedVideos st.page).isEmpty = true
        · rw [if_pos hempt]
          exact ⟨h, fun hn => hn⟩
        · rw [if_neg hempt]
          exact loopItems_unextractable onDecide skip blocklist i cont htitle
            (findUnprocessedVideos st.page) ⟨st.page, st.processed, 0⟩ h
      simp only [processVideos]
      rw [if_neg hg]
      dsimp only
      exact ⟨(hrunA _).1, fun hn => (hrunA _).2 hn,
        fun hattr => mem_findUnprocessedVideos (hrunA _).1 hattr⟩
  · intro skip ids st st' e h
    exact loopItems_error_marked onDecide skip blocklist ids st st' e h

/-- Witness for claim C8: a page with one unextractable item (empty title) and
one extractable item whose decision throws.  The unextractable item stays
unmarked and discoverable; the loop aborts with the extractable item already
marked in both mechanisms. -/
theorem processVideos_extraction_marking_witness :
    (lookupContainer 1 (processVideos ((fun _ _ => Except.error 7) : String → String → Except Nat String)
          (fun _ => OracleOutcome.err) true "/" "" (fun _ => false)
          ⟨false, [⟨1, "", "х", false, false⟩, ⟨2, "Привет мир", "Ch", false, false⟩],
            [], 0, false⟩).page = some ⟨1, "", "х", false, false⟩ ∧
      (1 ∉ ([] : List Nat) →
        1 ∉ (processVideos ((fun _ _ => Except.error 7) : String → String → Except Nat String)
          (fun _ => OracleOutcome.err) true "/" "" (fun _ => false)
          ⟨false, [⟨1, "", "х", false, false⟩, ⟨2, "Привет мир", "Ch", false, false⟩],
            [], 0, false⟩).processed) ∧
      ((⟨1, "", "х", false, false⟩ : Container).checkedAttr = false →
        1 ∈ findUnprocessedVideos (processVideos ((fun _ _ => Except.error 7) : String → String → Except Nat String)
          (fun _ => OracleOutcome.err) true "/" "" (fun _ => false)
          ⟨false, [⟨1, "", "х", false, false⟩, ⟨2, "Привет мир", "Ch", false, false⟩],
            [], 0, false⟩).page)) ∧
    (∃ i t ch,
      (∃ c, lookupContainer i
          [⟨1, "", "х", false, false⟩, ⟨2, "Привет мир", "Ch", false, false⟩] =
          some c ∧ c.title = t ∧ c.channelName = ch) ∧
      t ≠ "" ∧
      ((fun _ _ => Except.error 7) : String → String → Except Nat String) t ch = Except.error 7 ∧
      i ∈ (⟨[⟨1, "", "х", false, false⟩, ⟨2, "Привет мир", "Ch", true, false⟩],
        [2], 0⟩ : LoopState).processed ∧
      ∃ c', lookupContainer i (⟨[⟨1, "", "х", false, false⟩,
          ⟨2, "Привет мир", "Ch", true, false⟩], [2], 0⟩ : LoopState).page =
          some c' ∧ c'.checkedAttr = true) :=
  ⟨(processVideos_extraction_marking ((fun _ _ => Except.error 7) : String → String → Except Nat String)
      (fun _ => OracleOutcome.err) true "/" "" (fun _ => false)).1
    ⟨false, [⟨1, "", "х", false, false⟩, ⟨2, "Привет мир", "Ch", false, false⟩],
      [], 0, false⟩ 1 ⟨1, "", "х", false, false⟩ (by decide) rfl,
   (processVideos_extraction_marking ((fun _ _ => Except.error 7) : String → String → Except Nat String)
      (fun _ => OracleOutcome.err) true "/" "" (fun _ => false)).2
    false [1, 2]
    ⟨[⟨1, "", "х", false, false⟩, ⟨2, "Привет мир", "Ch", false, false⟩], [], 0⟩
    ⟨[⟨1, "", "х", false, false⟩, ⟨2, "Привет мир", "Ch", true, false⟩], [2], 0⟩
    7 (by decide)⟩

end RuFilter
